import Mathlib

/-!
Verification development for the DiligenceOps repository.

Part 1 embeds the frontend data contracts of `src/frontend/src/lib/types.ts`
and `src/frontend/src/lib/api.ts` / `src/frontend/src/app/page.tsx`.
Part 2 models the orchestration core (DAG scheduler, run state, correlation
engine) described by the specification; that backend code is not part of the
source tree, so those definitions are modelled from the spec and are marked
as such in their doc comments.
Part 3 embeds the `IncomeFlowSankey` component and the display formatters.

JavaScript numbers are embedded as rationals: none of the verified
properties depend on rounding of floating-point arithmetic, only on order
comparisons, subtraction and clamping, which the rational embedding
represents exactly.
-/

namespace DiligenceOps

/-! ### Frontend progress-event schema (types.ts, PipelineProgress) -/

/-- The `stage` union of the `PipelineProgress` interface:
`"bronze" | "silver" | "gold" | "workstreams" | "complete" | "error"`. -/
inductive Stage where
  | bronze
  | silver
  | gold
  | workstreams
  | complete
  | error
  deriving DecidableEq, Repr

/-- String values of the `stage` union, in declaration order. -/
def Stage.values : List String :=
  ["bronze", "silver", "gold", "workstreams", "complete", "error"]

/-- The `PipelineProgress` interface of types.ts: the shape of every
progress event the WebSocket client (`connectWebSocket` in api.ts) parses
and hands to the observer.  `timestamp` is declared optional (`timestamp?`). -/
structure PipelineProgress where
  run_id : String
  stage : Stage
  agent : String
  message : String
  progress_pct : ℚ
  timestamp : Option String

/-- Names of the non-optional fields of `PipelineProgress`, in declaration
order. -/
def PipelineProgress.requiredFields : List String :=
  ["run_id", "stage", "agent", "message", "progress_pct"]

/-- Names of the optional fields of `PipelineProgress`. -/
def PipelineProgress.optionalFields : List String :=
  ["timestamp"]

/-- All field names of the `PipelineProgress` interface. -/
def PipelineProgress.fields : List String :=
  PipelineProgress.requiredFields ++ PipelineProgress.optionalFields

/-! ### Frontend run-result schema (types.ts, PipelineResults) -/

/-- The `CrossWorkstreamFlag` interface of types.ts (four fields, all
required; `severity` is typed as a plain `string`). -/
structure CrossWorkstreamFlag where
  rule_name : String
  severity : String
  description : String
  evidence : List String
  deriving DecidableEq, Repr

/-- All field names of the `CrossWorkstreamFlag` interface, in declaration
order. -/
def CrossWorkstreamFlag.fields : List String :=
  ["rule_name", "severity", "description", "evidence"]

/-- Names of the non-optional fields of the `PipelineResults` interface of
types.ts (the payload of `getResults` in api.ts), in declaration order. -/
def PipelineResults.requiredFields : List String :=
  ["run_id", "ticker", "status"]

/-- Names of the optional fields of the `PipelineResults` interface, in
declaration order. -/
def PipelineResults.optionalFields : List String :=
  ["company_info", "kpis", "risk_scores", "memo", "risk_factors",
   "insider_signal", "insider_trades", "institutional_holders",
   "material_events", "governance", "cross_workstream_flags",
   "deal_recommendation", "files", "confidence", "errors"]

/-- All field names of the `PipelineResults` interface. -/
def PipelineResults.fields : List String :=
  PipelineResults.requiredFields ++ PipelineResults.optionalFields

/-- The terminal-status test the frontend polling loop applies to
`PipelineResults.status` (page.tsx, `handleSubmit`):
`r.status === "complete" || r.status === "error"`. -/
def isTerminalResultStatus (s : String) : Bool :=
  s == "complete" || s == "error"

/-- The terminal-stage test the frontend WebSocket handler applies to
`PipelineProgress.stage` (page.tsx, `handleSubmit`):
`p.stage === "complete" || p.stage === "error"`. -/
def isTerminalStage (s : Stage) : Bool :=
  s == Stage.complete || s == Stage.error

/-! ### Orchestration core, modelled from the spec

The DAG scheduler, run state and correlation engine live in the backend,
which is not part of the source tree (the frontend only observes them
through the event and result schemas above).  The definitions below are
therefore modelled from the specification text, section by section. -/

/-- Modelled from the spec: the per-task status stored in the Run State
`outputs` map — one of Pending, Running, Succeeded(value), Failed(reason),
Skipped(reason) (spec section 3, Run State). -/
inductive TaskStatus where
  | pending
  | running
  | succeeded (value : String)
  | failed (reason : String)
  | skipped (reason : String)
  deriving DecidableEq, Repr

/-- A status in the terminal set {Succeeded, Failed, Skipped}. -/
def TaskStatus.isDone : TaskStatus → Bool
  | succeeded _ => true
  | failed _ => true
  | skipped _ => true
  | _ => false

/-- A status in {Succeeded, Failed}: the task actually ran to completion. -/
def TaskStatus.isCompleted : TaskStatus → Bool
  | succeeded _ => true
  | failed _ => true
  | _ => false

/-- Modelled from the spec: a Task Definition — unique `name`, declared
`dependencies`, a `tier` used only for progress reporting, and an opaque
`execute` taking the subject-restricted view of its dependencies' outputs
and returning a success value or a failure reason (spec section 3).
Output values are embedded as opaque strings. -/
structure Task where
  name : String
  deps : List String
  tier : String
  execute : List (String × String) → Except String String

/-- Association-list lookup keyed by task name (first match wins). -/
def alookup {α : Type} : List (String × α) → String → Option α
  | [], _ => none
  | (n, s) :: rest, x => if x = n then some s else alookup rest x

/-- Modelled from the spec: the view of the Run State restricted to the
given dependencies' Succeeded outputs; `none` when any dependency is not
(yet) Succeeded — the guard both for launching a task and for evaluating a
correlation rule (spec sections 4.2, 4.4, 6). -/
def depOutputs (st : List (String × TaskStatus)) : List String → Option (List (String × String))
  | [] => some []
  | d :: rest =>
    match alookup st d, depOutputs st rest with
    | some (TaskStatus.succeeded v), some m => some ((d, v) :: m)
    | _, _ => none

/-- First dependency that is not Succeeded in the given state — the task
named in the `"upstream failure: <name>"` skip reason (spec section 4.2). -/
def firstBlocked (st : List (String × TaskStatus)) (deps : List String) : Option String :=
  deps.find? fun d =>
    match alookup st d with
    | some (TaskStatus.succeeded _) => false
    | _ => true

/-- Modelled from the spec: resolving one task against the current state —
run `execute` on the dependency outputs when all dependencies Succeeded,
record Failed on error, and mark the task Skipped without invoking
`execute` when an upstream dependency did not Succeed (spec section 4.2).
The boolean records whether `execute` was invoked. -/
def runTask (st : List (String × TaskStatus)) (t : Task) : TaskStatus × Bool :=
  match depOutputs st t.deps with
  | some m =>
    match t.execute m with
    | Except.ok v => (TaskStatus.succeeded v, true)
    | Except.error r => (TaskStatus.failed r, true)
  | none =>
    (TaskStatus.skipped ("upstream failure: " ++ (firstBlocked st t.deps).getD "unknown"), false)

/-- Modelled from the spec: the scheduler walk over the task list in a
topological linearisation, threading the Run State `outputs` map and the
list of tasks whose `execute` was invoked (spec sections 4.2, 5: the
scheduler's bookkeeping is single-threaded, so any run is observationally
one such linearisation). -/
def runAux : List (String × TaskStatus) → List String → List Task →
    List (String × TaskStatus) × List String
  | st, inv, [] => (st, inv)
  | st, inv, t :: rest =>
    let r := runTask st t
    runAux (st ++ [(t.name, r.1)]) (if r.2 then inv ++ [t.name] else inv) rest

/-- Modelled from the spec: one full run of the scheduler from the
all-Pending state (spec section 4.2). -/
def runScheduler (tasks : List Task) : List (String × TaskStatus) × List String :=
  runAux [] [] tasks

/-- Final Run State `outputs` map of a run. -/
def finalState (tasks : List Task) : List (String × TaskStatus) :=
  (runScheduler tasks).1

/-- Names of the tasks whose `execute` was invoked during a run. -/
def invoked (tasks : List Task) : List String :=
  (runScheduler tasks).2

/-- Modelled from the spec: the run is terminal when every task is in
{Succeeded, Failed, Skipped} (spec section 4.2). -/
def terminalRun (st : List (String × TaskStatus)) (tasks : List Task) : Bool :=
  tasks.all fun t =>
    match alookup st t.name with
    | some s => s.isDone
    | none => false

/-- Modelled from the spec: terminal status is `run_failed` when some task
Failed, `run_complete` otherwise (spec section 4.2). -/
def runStatus (st : List (String × TaskStatus)) (tasks : List Task) : String :=
  if tasks.any (fun t =>
      match alookup st t.name with
      | some (TaskStatus.failed _) => true
      | _ => false)
  then "run_failed" else "run_complete"

/-- Modelled from the spec: the Task Graph validation — the list is a
topological linearisation in which every dependency name refers to an
earlier task (spec sections 3, 4.1: acyclicity and referential integrity,
checked at graph construction). -/
def TopoSorted : List String → List Task → Prop
  | _, [] => True
  | seen, t :: rest => (∀ d ∈ t.deps, d ∈ seen) ∧ TopoSorted (seen ++ [t.name]) rest

instance instTopoSortedDecidable : (seen : List String) → (ts : List Task) →
    Decidable (TopoSorted seen ts)
  | _, [] => Decidable.isTrue trivial
  | seen, t :: rest =>
    have h2 : Decidable (TopoSorted (seen ++ [t.name]) rest) :=
      instTopoSortedDecidable (seen ++ [t.name]) rest
    have h1 : Decidable (∀ d ∈ t.deps, d ∈ seen) := inferInstance
    match h1, h2 with
    | Decidable.isTrue a, Decidable.isTrue b => Decidable.isTrue ⟨a, b⟩
    | Decidable.isFalse a, _ => Decidable.isFalse fun h => a h.1
    | _, Decidable.isFalse b => Decidable.isFalse fun h => b h.2

/-- Transitive dependency between task names: `DependsOn tasks x a` holds
when the task named `x` depends on the task named `a` directly or through
a chain (spec sections 4.2, 8). -/
inductive DependsOn (tasks : List Task) : String → String → Prop where
  | direct {t : Task} {d : String} :
      t ∈ tasks → d ∈ t.deps → DependsOn tasks t.name d
  | trans {t : Task} {b d : String} :
      t ∈ tasks → b ∈ t.deps → DependsOn tasks b d → DependsOn tasks t.name d

/-- Replacing the `execute` of every task named `a` — used to state that a
task's final status is independent of another task's outcome. -/
def replaceExec (tasks : List Task) (a : String)
    (e : List (String × String) → Except String String) : List Task :=
  tasks.map fun t => if t.name = a then { t with execute := e } else t

/-- Modelled from the spec: the section 8 scenario graph
{ingest (no deps), transform (dep: ingest), analyze (dep: transform)}
where the transform step fails. -/
def demoIngest : Task := ⟨"ingest", [], "ingest", fun _ => Except.ok "edgar-data"⟩

/-- Transform task of the demo graph: its `execute` reports a failure. -/
def demoTransform : Task :=
  ⟨"transform", ["ingest"], "transform", fun _ => Except.error "llm timeout"⟩

/-- Analyze task of the demo graph, dependent on the transform task. -/
def demoAnalyze : Task :=
  ⟨"analyze", ["transform"], "synthesize", fun _ => Except.ok "analysis"⟩

/-- The demo graph in a topological order. -/
def demoTasks : List Task := [demoIngest, demoTransform, demoAnalyze]

/-- Graph used for the branch-isolation witness: "A" fails, "B" depends on
"A", "C" is independent and succeeds. -/
def isoTasks : List Task :=
  [⟨"A", [], "ingest", fun _ => Except.error "boom"⟩,
   ⟨"B", ["A"], "transform", fun _ => Except.ok "b"⟩,
   ⟨"C", [], "ingest", fun _ => Except.ok "c"⟩]

/-- Graph refuting C5 as literally stated: "A" and "B" both fail, "C"
depends only on "B". -/
def cexTasks : List Task :=
  [⟨"A", [], "ingest", fun _ => Except.error "boom"⟩,
   ⟨"B", [], "ingest", fun _ => Except.error "crash"⟩,
   ⟨"C", ["B"], "transform", fun _ => Except.ok "c"⟩]

/-! ### Correlation engine, modelled from the spec (sections 3, 4.4, 6) -/

/-- Modelled from the spec: the severity enum of a Correlation Finding —
Low / Medium / High / Critical (spec section 3). -/
inductive Severity where
  | low
  | medium
  | high
  | critical
  deriving DecidableEq, Repr

/-- Modelled from the spec: a Correlation Finding — `rule_name`,
`severity`, `description`, and `evidence`, the ordered list of references
into Run State outputs that triggered the rule (spec section 3). -/
structure Finding where
  rule_name : String
  severity : Severity
  description : String
  evidence : List String
  deriving DecidableEq, Repr

/-- Modelled from the spec: a declarative correlation rule supplied as
data — name, severity, description template, the task outputs it reads,
and a predicate over those outputs (spec sections 4.4, 6). -/
structure CorrelationRule where
  name : String
  severity : Severity
  description : String
  reads : List String
  predicate : List (String × String) → Bool

/-- Modelled from the spec: the Run State — the immutable `subject` of the
run plus the per-task `outputs` map (spec section 3). -/
structure RunState where
  subject : String
  outputs : List (String × TaskStatus)

/-- The Run State snapshot is terminal: every recorded task status is in
{Succeeded, Failed, Skipped}. -/
def RunState.isTerminal (s : RunState) : Bool :=
  s.outputs.all fun p => p.2.isDone

/-- Modelled from the spec: evaluating one rule against a Run State
snapshot.  A rule whose referenced outputs are not all Succeeded is
silently disqualified (`none`) instead of raising an error — the function
is total; otherwise the predicate decides whether a Finding carrying the
rule's name, severity, description and read references is produced
(spec section 4.4). -/
def evalRule (s : RunState) (r : CorrelationRule) : Option Finding :=
  match depOutputs s.outputs r.reads with
  | some vals =>
    if r.predicate vals then some ⟨r.name, r.severity, r.description, r.reads⟩ else none
  | none => none

/-- Modelled from the spec: the Correlation Engine — evaluate the rules in
their fixed declaration order against one Run State snapshot and collect
the findings (spec section 4.4). -/
def correlate (rules : List CorrelationRule) (s : RunState) : List Finding :=
  rules.filterMap (evalRule s)

/-- Rule used in the correlation-engine witnesses: it reads the outputs of
"risk" and "insider" and always triggers when both Succeeded. -/
def demoRule : CorrelationRule :=
  ⟨"HighRiskInsiderSelling", Severity.high,
    "High risk score combined with insider selling", ["risk", "insider"],
    fun _ => true⟩

/-- Terminal Run State snapshot used in the correlation-engine witnesses. -/
def demoState : RunState :=
  ⟨"AAPL", [("risk", TaskStatus.succeeded "0.82"),
    ("insider", TaskStatus.succeeded "net-selling")]⟩

/-- Same outputs as `demoState` under a different subject, for the
determinism witness. -/
def demoStateB : RunState :=
  ⟨"TSLA", [("risk", TaskStatus.succeeded "0.82"),
    ("insider", TaskStatus.succeeded "net-selling")]⟩

/-- Run State in which the "insider" output referenced by `demoRule` was
Skipped. -/
def skipState : RunState :=
  ⟨"AAPL", [("risk", TaskStatus.succeeded "0.82"),
    ("insider", TaskStatus.skipped "upstream failure: ingest")]⟩

/-! ### IncomeFlowSankey (src/unnamed/part_001) -/

/-- The `NodeType` union of IncomeFlowSankey: `"rev" | "profit" | "cost"`. -/
inductive NodeType where
  | rev
  | profit
  | cost
  deriving DecidableEq, Repr

/-- The `FinancialKPIs` interface of types.ts.  Numeric fields are embedded
as rationals. -/
structure FinancialKPIs where
  revenue : Option ℚ
  revenue_prior : Option ℚ
  revenue_yoy_change : Option ℚ
  net_income : Option ℚ
  net_income_prior : Option ℚ
  gross_profit : Option ℚ
  gross_margin : Option ℚ
  operating_income : Option ℚ
  operating_margin : Option ℚ
  total_assets : Option ℚ
  total_liabilities : Option ℚ
  stockholders_equity : Option ℚ
  debt_to_equity : Option ℚ
  long_term_debt : Option ℚ
  cash_and_equivalents : Option ℚ
  current_ratio : Option ℚ
  operating_cash_flow : Option ℚ
  free_cash_flow : Option ℚ
  eps_basic : Option ℚ
  fiscal_year : ℤ
  period_end : String
  currency : String
  source_tags : List (String × String)
  anomalies : List String

/-- A `NodeDef` of IncomeFlowSankey: id, label, column, type and value. -/
structure SankeyNodeDef where
  id : String
  label : String
  col : ℕ
  ntype : NodeType
  val : ℚ
  deriving DecidableEq, Repr

/-- A `LinkDef` of IncomeFlowSankey: source id `s`, target id `t`, value
`v`. -/
structure SankeyLinkDef where
  s : String
  t : String
  v : ℚ
  deriving DecidableEq, Repr

/-- `computeLayout`: `const revenue = kpis.revenue ?? 0`. -/
def sankeyRevenue (k : FinancialKPIs) : ℚ := k.revenue.getD 0

/-- `computeLayout`: `const grossProfit = kpis.gross_profit ?? 0`. -/
def sankeyGrossProfit (k : FinancialKPIs) : ℚ := k.gross_profit.getD 0

/-- `computeLayout`: `costOfRevenue = Math.max(0, revenue - grossProfit)`. -/
def sankeyCostOfRevenue (k : FinancialKPIs) : ℚ :=
  max 0 (sankeyRevenue k - sankeyGrossProfit k)

/-- `computeLayout`: `operatingIncome = kpis.operating_income ?? 0`. -/
def sankeyOperatingIncome (k : FinancialKPIs) : ℚ := k.operating_income.getD 0

/-- `computeLayout`:
`operatingExpenses = Math.max(0, grossProfit - operatingIncome)`. -/
def sankeyOperatingExpenses (k : FinancialKPIs) : ℚ :=
  max 0 (sankeyGrossProfit k - sankeyOperatingIncome k)

/-- `computeLayout`: `netIncome = kpis.net_income ?? 0`. -/
def sankeyNetIncome (k : FinancialKPIs) : ℚ := k.net_income.getD 0

/-- `computeLayout`: `taxAndOther = Math.max(0, operatingIncome - netIncome)`. -/
def sankeyTaxAndOther (k : FinancialKPIs) : ℚ :=
  max 0 (sankeyOperatingIncome k - sankeyNetIncome k)

/-- `computeLayout`:
`grossMargin = kpis.gross_margin ?? (revenue ? grossProfit / revenue : 0)`
(JavaScript truthiness of `revenue` is `revenue ≠ 0`). -/
def sankeyGrossMargin (k : FinancialKPIs) : ℚ :=
  match k.gross_margin with
  | some m => m
  | none => if sankeyRevenue k = 0 then 0 else sankeyGrossProfit k / sankeyRevenue k

/-- `computeLayout`:
`operatingMargin = kpis.operating_margin ?? (revenue ? operatingIncome / revenue : 0)`. -/
def sankeyOperatingMargin (k : FinancialKPIs) : ℚ :=
  match k.operating_margin with
  | some m => m
  | none => if sankeyRevenue k = 0 then 0 else sankeyOperatingIncome k / sankeyRevenue k

/-- `computeLayout`: `netMargin = revenue ? netIncome / revenue : 0`. -/
def sankeyNetMargin (k : FinancialKPIs) : ℚ :=
  if sankeyRevenue k = 0 then 0 else sankeyNetIncome k / sankeyRevenue k

/-- `computeLayout`'s `nodeDefs`: the seven income-statement nodes,
filtered by `.filter(n => n.val > 0)`. -/
def sankeyNodeDefs (k : FinancialKPIs) : List SankeyNodeDef :=
  ([⟨"revenue", "Revenue", 0, NodeType.rev, sankeyRevenue k⟩,
    ⟨"gross_profit", "Gross Profit", 1, NodeType.profit, sankeyGrossProfit k⟩,
    ⟨"cogs", "Cost of Revenue", 1, NodeType.cost, sankeyCostOfRevenue k⟩,
    ⟨"op_income", "Operating Income", 2, NodeType.profit, sankeyOperatingIncome k⟩,
    ⟨"opex", "Operating Expenses", 2, NodeType.cost, sankeyOperatingExpenses k⟩,
    ⟨"net_income", "Net Income", 3, NodeType.profit, sankeyNetIncome k⟩,
    ⟨"tax_other", "Tax & Other", 3, NodeType.cost, sankeyTaxAndOther k⟩]).filter
      fun n => 0 < n.val

/-- `computeLayout`'s `linkDefs`: the six flow links, filtered by
`.filter(l => l.v > 0)`. -/
def sankeyLinkDefs (k : FinancialKPIs) : List SankeyLinkDef :=
  ([⟨"revenue", "gross_profit", sankeyGrossProfit k⟩,
    ⟨"revenue", "cogs", sankeyCostOfRevenue k⟩,
    ⟨"gross_profit", "op_income", sankeyOperatingIncome k⟩,
    ⟨"gross_profit", "opex", sankeyOperatingExpenses k⟩,
    ⟨"op_income", "net_income", sankeyNetIncome k⟩,
    ⟨"op_income", "tax_other", sankeyTaxAndOther k⟩]).filter
      fun l => 0 < l.v

/-- `computeLayout`'s node map `nm`, keyed by node id (only surviving
`nodeDefs` are entered). -/
def sankeyNodeMap (k : FinancialKPIs) (id : String) : Option SankeyNodeDef :=
  (sankeyNodeDefs k).find? fun n => n.id == id

/-- `computeLayout`'s `layoutLinks`: the link list further filtered by
`.filter(l => nm[l.s] && nm[l.t])`. -/
def sankeyLayoutLinks (k : FinancialKPIs) : List SankeyLinkDef :=
  (sankeyLinkDefs k).filter fun l =>
    (sankeyNodeMap k l.s).isSome && (sankeyNodeMap k l.t).isSome

/-- Value-level result of `computeLayout` (the node/link pixel geometry of
the SVG is presentation only and is not modelled): surviving nodes and
links plus the `revenue` and margin figures it returns, which the
component divides by in every "% of Revenue" label. -/
structure SankeyLayout where
  nodes : List SankeyNodeDef
  links : List SankeyLinkDef
  revenue : ℚ
  grossMargin : ℚ
  operatingMargin : ℚ
  netMargin : ℚ
  deriving DecidableEq, Repr

/-- Value-level `computeLayout`. -/
def computeLayout (k : FinancialKPIs) : SankeyLayout :=
  ⟨sankeyNodeDefs k, sankeyLayoutLinks k, sankeyRevenue k,
    sankeyGrossMargin k, sankeyOperatingMargin k, sankeyNetMargin k⟩

/-- What the `IncomeFlowSankey` component renders: either the
"Revenue data not available" placeholder or the laid-out chart. -/
inductive SankeyView where
  | placeholder
  | chart (layout : SankeyLayout)
  deriving DecidableEq, Repr

/-- The `IncomeFlowSankey` component body:
`const revenue = kpis.revenue ?? 0; if (revenue <= 0) return <placeholder>;`
then `computeLayout(kpis)` renders the chart. -/
def IncomeFlowSankey (k : FinancialKPIs) : SankeyView :=
  if sankeyRevenue k ≤ 0 then SankeyView.placeholder
  else SankeyView.chart (computeLayout k)

/-! ### Display formatters (page.tsx) -/

/-- Decimal rendering of a natural number (model of JavaScript's default
number-to-string conversion for integers). -/
def natDigitsStr (n : ℕ) : String :=
  if n = 0 then "0"
  else String.mk (((Nat.digits 10 n).reverse).map Nat.digitChar)

/-- Left-pad with zeros to `d` characters. -/
def padZeros (s : String) (d : ℕ) : String :=
  String.mk (List.replicate (d - s.length) '0') ++ s

/-- Model of JavaScript `Number.prototype.toFixed(d)`: round to `d`
decimal places and render sign, integer part and (when `d > 0`) a decimal
point followed by `d` fraction digits. -/
def ratToFixed (q : ℚ) (d : ℕ) : String :=
  let n : ℤ := round (q * (10 : ℚ) ^ d)
  let sign := if n < 0 then "-" else ""
  let na := n.natAbs
  if d = 0 then sign ++ natDigitsStr na
  else sign ++ natDigitsStr (na / 10 ^ d) ++ "." ++ padZeros (natDigitsStr (na % 10 ^ d)) d

/-- Model of JavaScript `Number.prototype.toLocaleString` as used by
`formatCurrency` (grouping separators and fraction rendering elided: only
the property that the result is a numeric string, never "N/A", matters
to the verified claims). -/
def ratToLocale (q : ℚ) : String := ratToFixed q 0

/-- `formatCurrency` from page.tsx: "N/A" on a missing value, otherwise a
dollar string scaled to billions / millions / plain. -/
def formatCurrency : Option ℚ → String
  | none => "N/A"
  | some val =>
    if (1000000000 : ℚ) ≤ |val| then "$" ++ ratToFixed (val / 1000000000) 1 ++ "B"
    else if (1000000 : ℚ) ≤ |val| then "$" ++ ratToFixed (val / 1000000) 1 ++ "M"
    else "$" ++ ratToLocale val

/-- `formatPercent` from page.tsx: "N/A" on a missing value, otherwise
`(val * 100).toFixed(1) + "%"`. -/
def formatPercent : Option ℚ → String
  | none => "N/A"
  | some val => ratToFixed (val * 100) 1 ++ "%"

/-- `formatNumber` from page.tsx: "N/A" on a missing value, otherwise
`val.toFixed(decimals)` (the source defaults `decimals` to 2). -/
def formatNumber (val : Option ℚ) (decimals : ℕ) : String :=
  match val with
  | none => "N/A"
  | some v => ratToFixed v decimals

/-- KPI record with every field missing. -/
def emptyKPIs : FinancialKPIs :=
  ⟨none, none, none, none, none, none, none, none, none, none, none, none,
   none, none, none, none, none, none, none, 0, "", "USD", [], []⟩

/-- KPI record with revenue 100, gross profit 60, operating income 30 and
net income 20. -/
def sampleKPIs : FinancialKPIs :=
  ⟨some 100, none, none, some 20, none, some 60, none, some 30, none, none,
   none, none, none, none, none, none, none, none, none, 2024, "2024-09-28",
   "USD", [], []⟩

/-! ### Basic lemmas about the scheduler model -/

theorem alookup_append {α : Type} (l l' : List (String × α)) (x : String) :
    alookup (l ++ l') x =
      match alookup l x with
      | some s => some s
      | none => alookup l' x := by
  induction l with
  | nil => simp [alookup]
  | cons p rest ih =>
    obtain ⟨n, v⟩ := p
    by_cases hx : x = n <;> simp [alookup, hx, ih]

theorem alookup_append_some {α : Type} {l : List (String × α)} {x : String} {s : α}
    (l' : List (String × α)) (h : alookup l x = some s) :
    alookup (l ++ l') x = some s := by
  rw [alookup_append, h]

theorem alookup_append_none {α : Type} {l : List (String × α)} {x : String}
    (l' : List (String × α)) (h : alookup l x = none) :
    alookup (l ++ l') x = alookup l' x := by
  rw [alookup_append, h]

theorem alookup_mem_keys {α : Type} {l : List (String × α)} {x : String}
    (h : x ∈ l.map Prod.fst) : ∃ s, alookup l x = some s := by
  induction l with
  | nil => simp at h
  | cons p rest ih =>
    obtain ⟨n, v⟩ := p
    by_cases hx : x = n
    · exact ⟨v, by simp [alookup, hx]⟩
    · have : x ∈ rest.map Prod.fst := by simpa [hx] using h
      obtain ⟨s, hs⟩ := ih this
      exact ⟨s, by simp [alookup, hx, hs]⟩

theorem alookup_not_mem_keys {α : Type} {l : List (String × α)} {x : String}
    (h : x ∉ l.map Prod.fst) : alookup l x = none := by
  induction l with
  | nil => rfl
  | cons p rest ih =>
    obtain ⟨n, v⟩ := p
    have hx : x ≠ n := by intro he; exact h (by simp [he])
    have : x ∉ rest.map Prod.fst := fun hm => h (by simp [hm])
    simp [alookup, hx, ih this]

theorem runAux_state_mono {x : String} {s : TaskStatus} :
    ∀ (ts : List Task) (st : List (String × TaskStatus)) (inv : List String),
      alookup st x = some s → alookup (runAux st inv ts).1 x = some s := by
  intro ts
  induction ts with
  | nil => intro st inv h; exact h
  | cons t rest ih =>
    intro st inv h
    exact ih _ _ (alookup_append_some _ h)

theorem runAux_keys :
    ∀ (ts : List Task) (st : List (String × TaskStatus)) (inv : List String),
      ((runAux st inv ts).1).map Prod.fst = st.map Prod.fst ++ ts.map Task.name := by
  intro ts
  induction ts with
  | nil => intro st inv; simp [runAux]
  | cons t rest ih =>
    intro st inv
    simp only [runAux, ih, List.map_append, List.map_cons, List.map_nil]
    simp

theorem runAux_inv_mono {x : String} :
    ∀ (ts : List Task) (st : List (String × TaskStatus)) (inv : List String),
      x ∈ inv → x ∈ (runAux st inv ts).2 := by
  intro ts
  induction ts with
  | nil => intro st inv h; exact h
  | cons t rest ih =>
    intro st inv h
    by_cases hc : (runTask st t).2
    · simpa [runAux, hc] using ih _ _ (by simp [h])
    · simpa [runAux, hc] using ih _ _ h

theorem runAux_inv_sub {x : String} :
    ∀ (ts : List Task) (st : List (String × TaskStatus)) (inv : List String),
      x ∈ (runAux st inv ts).2 → x ∈ inv ∨ x ∈ ts.map Task.name := by
  intro ts
  induction ts with
  | nil => intro st inv h; exact Or.inl h
  | cons t rest ih =>
    intro st inv h
    by_cases hc : (runTask st t).2
    · simp only [runAux, hc, if_pos] at h
      rcases ih _ _ h with hi | hi
      · rcases List.mem_append.mp hi with hi' | hi'
        · exact Or.inl hi'
        · exact Or.inr (by simp at hi'; simp [hi'])
      · exact Or.inr (by simp [hi])
    · simp only [runAux, hc, if_neg, Bool.false_eq_true, not_false_iff] at h
      rcases ih _ _ h with hi | hi
      · exact Or.inl hi
      · exact Or.inr (by simp [hi])

theorem runTask_done (st : List (String × TaskStatus)) (t : Task) :
    (runTask st t).1.isDone = true := by
  unfold runTask
  rcases hdep : depOutputs st t.deps with _ | m
  · rfl
  · rcases he : t.execute m with v | r <;> simp [he, TaskStatus.isDone]

theorem runAux_done :
    ∀ (ts : List Task) (st : List (String × TaskStatus)) (inv : List String),
      (∀ x s, alookup st x = some s → s.isDone = true) →
      ∀ x s, alookup (runAux st inv ts).1 x = some s → s.isDone = true := by
  intro ts
  induction ts with
  | nil => intro st inv hD x s h; exact hD x s h
  | cons t rest ih =>
    intro st inv hD x s h
    refine ih _ _ ?_ x s h
    intro y u hy
    rw [alookup_append] at hy
    rcases hst : alookup st y with _ | u'
    · rw [hst] at hy
      simp only [alookup] at hy
      by_cases hyn : y = t.name
      · simp only [hyn, if_pos rfl] at hy
        cases hy
        exact runTask_done st t
      · simp [hyn] at hy
    · rw [hst] at hy
      cases hy
      exact hD y u hst

theorem depOutputs_some_mem {st : List (String × TaskStatus)} :
    ∀ {deps : List String} {m : List (String × String)},
      depOutputs st deps = some m →
      ∀ d ∈ deps, ∃ v, alookup st d = some (TaskStatus.succeeded v) := by
  intro deps
  induction deps with
  | nil => intro m h d hd; simp at hd
  | cons d0 rest ih =>
    intro m h d hd
    simp only [depOutputs] at h
    rcases hA : alookup st d0 with _ | s
    · rw [hA] at h; simp at h
    · rw [hA] at h
      rcases s with _ | _ | v | r | r
      · simp at h
      · simp at h
      · rcases hR : depOutputs st rest with _ | m'
        · rw [hR] at h; simp at h
        · rcases List.mem_cons.mp hd with rfl | hmem
          · exact ⟨v, hA⟩
          · exact ih hR d hmem
      · simp at h
      · simp at h

theorem depOutputs_none_exists {st : List (String × TaskStatus)} :
    ∀ {deps : List String},
      depOutputs st deps = none →
      ∃ d ∈ deps, ∀ v, alookup st d ≠ some (TaskStatus.succeeded v) := by
  intro deps
  induction deps with
  | nil => intro h; simp [depOutputs] at h
  | cons d0 rest ih =>
    intro h
    simp only [depOutputs] at h
    rcases hA : alookup st d0 with _ | s
    · exact ⟨d0, by simp, fun v hv => by rw [hA] at hv; cases hv⟩
    · rw [hA] at h
      rcases s with _ | _ | v | r | r
      · exact ⟨d0, by simp, fun v hv => by rw [hA] at hv; cases hv⟩
      · exact ⟨d0, by simp, fun v hv => by rw [hA] at hv; cases hv⟩
      · rcases hR : depOutputs st rest with _ | m'
        · obtain ⟨d, hd, hds⟩ := ih hR
          exact ⟨d, by simp [hd], hds⟩
        · rw [hR] at h; simp at h
      · exact ⟨d0, by simp, fun v hv => by rw [hA] at hv; cases hv⟩
      · exact ⟨d0, by simp, fun v hv => by rw [hA] at hv; cases hv⟩

theorem runAux_resolves :
    ∀ (ts : List Task) (st : List (String × TaskStatus)) (inv : List String) (t : Task),
      t ∈ ts → (ts.map Task.name).Nodup →
      t.name ∉ st.map Prod.fst → t.name ∉ inv →
      ∃ stPre,
        alookup (runAux st inv ts).1 t.name = some (runTask stPre t).1 ∧
        (t.name ∈ (runAux st inv ts).2 ↔ (runTask stPre t).2 = true) ∧
        (∀ x s, alookup stPre x = some s → alookup (runAux st inv ts).1 x = some s) := by
  intro ts
  induction ts with
  | nil => intro st inv t ht; simp at ht
  | cons h0 rest ih =>
    intro st inv t ht hnd hkeys hinv
    have hnd2 : (h0.name :: rest.map Task.name).Nodup := by simpa using hnd
    have hnd' : (rest.map Task.name).Nodup := (List.nodup_cons.mp hnd2).2
    have hh0 : h0.name ∉ rest.map Task.name := (List.nodup_cons.mp hnd2).1
    rcases List.mem_cons.mp ht with rfl | hmem
    · -- t is the head: it is resolved against the current state st
      refine ⟨st, ?_, ⟨fun hmem2 => ?_, fun hc => ?_⟩, ?_⟩
      · have h1 : alookup st t.name = none := alookup_not_mem_keys hkeys
        have h2 : alookup (st ++ [(t.name, (runTask st t).1)]) t.name
            = some (runTask st t).1 := by
          rw [alookup_append_none _ h1]; simp [alookup]
        exact runAux_state_mono rest _ _ h2
      · by_cases hc : (runTask st t).2
        · exact hc
        · exfalso
          simp only [runAux, hc, if_neg, Bool.false_eq_true, not_false_iff] at hmem2
          rcases runAux_inv_sub rest _ _ hmem2 with hi | hi
          · exact hinv hi
          · exact hh0 hi
      · have hmm : t.name ∈ (if (runTask st t).2 then inv ++ [t.name] else inv) := by
          simp [hc]
        exact runAux_inv_mono rest _ _ hmm
      · intro x s hx
        exact runAux_state_mono rest _ _ (alookup_append_some _ hx)
    · -- t is further down the list
      have hne : h0.name ≠ t.name := by
        intro he
        apply hh0
        rw [he]
        exact List.mem_map_of_mem Task.name hmem
      have hkeys' : t.name ∉ (st ++ [(h0.name, (runTask st h0).1)]).map Prod.fst := by
        rw [List.map_append]
        intro hm
        rcases List.mem_append.mp hm with hm' | hm'
        · exact hkeys hm'
        · simp at hm'
          exact hne hm'.symm
      have hinv' : t.name ∉ (if (runTask st h0).2 then inv ++ [h0.name] else inv) := by
        by_cases hc : (runTask st h0).2
        · simp only [hc, if_pos]
          intro hm
          rcases List.mem_append.mp hm with hm' | hm'
          · exact hinv hm'
          · simp at hm'
            exact hne hm'.symm
        · simpa [hc] using hinv
      exact ih _ _ t hmem hnd' hkeys' hinv'

/-- A task one of whose dependencies does not end the run Succeeded is
itself Skipped and its `execute` is never invoked. -/
theorem blocked_task_skipped {tasks : List Task} {t : Task} {b : String}
    (hnd : (tasks.map Task.name).Nodup) (ht : t ∈ tasks) (hb : b ∈ t.deps)
    (hbs : ∀ v, alookup (finalState tasks) b ≠ some (TaskStatus.succeeded v)) :
    (∃ r, alookup (finalState tasks) t.name = some (TaskStatus.skipped r)) ∧
    t.name ∉ invoked tasks := by
  obtain ⟨stPre, hlook, hiff, hmono⟩ :=
    runAux_resolves tasks [] [] t ht hnd (by simp) (by simp)
  have hblocked : depOutputs stPre t.deps = none := by
    rcases hdep : depOutputs stPre t.deps with _ | m
    · rfl
    · exfalso
      obtain ⟨v, hv⟩ := depOutputs_some_mem hdep b hb
      exact hbs v (hmono b _ hv)
  have hrt : runTask stPre t =
      (TaskStatus.skipped ("upstream failure: " ++ (firstBlocked stPre t.deps).getD "unknown"),
        false) := by
    unfold runTask
    rw [hblocked]
  have hfin : alookup (finalState tasks) t.name =
      some (TaskStatus.skipped
        ("upstream failure: " ++ (firstBlocked stPre t.deps).getD "unknown")) := by
    have h3 : alookup (runAux [] [] tasks).1 t.name = some (runTask stPre t).1 := hlook
    rw [hrt] at h3
    exact h3
  refine ⟨⟨_, hfin⟩, ?_⟩
  intro hmem
  have h4 := hiff.mp hmem
  rw [hrt] at h4
  cases h4

theorem runTask_of_depOutputs_some {st : List (String × TaskStatus)} {t : Task}
    {m : List (String × String)} (h : depOutputs st t.deps = some m) :
    runTask st t =
      match t.execute m with
      | Except.ok v => (TaskStatus.succeeded v, true)
      | Except.error r => (TaskStatus.failed r, true) := by
  unfold runTask
  rw [h]

theorem runTask_of_depOutputs_none {st : List (String × TaskStatus)} {t : Task}
    (h : depOutputs st t.deps = none) :
    runTask st t =
      (TaskStatus.skipped
        ("upstream failure: " ++ (firstBlocked st t.deps).getD "unknown"), false) := by
  unfold runTask
  rw [h]

theorem runTask_skipped_blocked {st : List (String × TaskStatus)} {t : Task}
    {ry : String} (h : (runTask st t).1 = TaskStatus.skipped ry) :
    depOutputs st t.deps = none := by
  rcases hdep : depOutputs st t.deps with _ | m
  · rfl
  · exfalso
    rw [runTask_of_depOutputs_some hdep] at h
    rcases he : t.execute m with v | r <;> rw [he] at h <;> simp at h

theorem runAux_skip_ancestor (ts0 : List Task) :
    ∀ (ts : List Task) (st : List (String × TaskStatus)) (inv : List String),
      (∀ t ∈ ts, t ∈ ts0) →
      TopoSorted (st.map Prod.fst) ts →
      (∀ x s, alookup st x = some s → s.isDone = true) →
      (∀ x r, alookup st x = some (TaskStatus.skipped r) →
        ∃ a fr, DependsOn ts0 x a ∧ alookup st a = some (TaskStatus.failed fr)) →
      ∀ x r, alookup (runAux st inv ts).1 x = some (TaskStatus.skipped r) →
        ∃ a fr, DependsOn ts0 x a ∧
          alookup (runAux st inv ts).1 a = some (TaskStatus.failed fr) := by
  intro ts
  induction ts with
  | nil => intro st inv _ _ _ hQ x r h; exact hQ x r h
  | cons t rest ih =>
    intro st inv hsub htopo hD hQ x r h
    obtain ⟨hdeps, htopo'⟩ := htopo
    have ht0 : t ∈ ts0 := hsub t (by simp)
    have hkeys' : ((st ++ [(t.name, (runTask st t).1)]).map Prod.fst)
        = st.map Prod.fst ++ [t.name] := by simp
    have hD' : ∀ x s, alookup (st ++ [(t.name, (runTask st t).1)]) x = some s →
        s.isDone = true := by
      intro y u hy
      rw [alookup_append] at hy
      rcases hst : alookup st y with _ | u'
      · rw [hst] at hy
        simp only [alookup] at hy
        by_cases hyn : y = t.name
        · simp only [hyn, if_pos rfl] at hy
          cases hy
          exact runTask_done st t
        · simp [hyn] at hy
      · rw [hst] at hy
        cases hy
        exact hD y u hst
    have hQ' : ∀ x r, alookup (st ++ [(t.name, (runTask st t).1)]) x
          = some (TaskStatus.skipped r) →
        ∃ a fr, DependsOn ts0 x a ∧
          alookup (st ++ [(t.name, (runTask st t).1)]) a
            = some (TaskStatus.failed fr) := by
      intro y ry hy
      rw [alookup_append] at hy
      rcases hst : alookup st y with _ | u'
      · rw [hst] at hy
        simp only [alookup] at hy
        by_cases hyn : y = t.name
        · -- the freshly assigned task was Skipped: its blocking dependency
          -- is already Done in st and is Failed or itself Skipped
          simp only [hyn, if_pos rfl] at hy
          have hskip : (runTask st t).1 = TaskStatus.skipped ry := by
            simpa using hy
          have hblocked : depOutputs st t.deps = none :=
            runTask_skipped_blocked hskip
          obtain ⟨d, hd, hds⟩ := depOutputs_none_exists hblocked
          have hdk : d ∈ st.map Prod.fst := hdeps d hd
          obtain ⟨s, hs⟩ := alookup_mem_keys hdk
          have hdone := hD d s hs
          rcases s with _ | _ | v | fr | rs
          · cases hdone
          · cases hdone
          · exact absurd hs (hds v)
          · refine ⟨d, fr, ?_, ?_⟩
            · subst hyn
              exact DependsOn.direct ht0 hd
            · exact alookup_append_some _ hs
          · obtain ⟨a, fr, hdep2, hfails⟩ := hQ d rs hs
            refine ⟨a, fr, ?_, alookup_append_some _ hfails⟩
            subst hyn
            exact DependsOn.trans ht0 hd hdep2
        · simp [hyn] at hy
      · rw [hst] at hy
        cases hy
        obtain ⟨a, fr, hdep2, hfails⟩ := hQ y ry hst
        exact ⟨a, fr, hdep2, alookup_append_some _ hfails⟩
    have := ih (st ++ [(t.name, (runTask st t).1)])
      (if (runTask st t).2 then inv ++ [t.name] else inv)
      (fun u hu => hsub u (by simp [hu]))
      (by rw [hkeys']; exact htopo') hD' hQ' x r
    exact this h

/-- In a run of a validated (topologically sorted) graph, every task that
ends Skipped has a transitive dependency that ended Failed. -/
theorem final_skip_ancestor {tasks : List Task} (htopo : TopoSorted [] tasks)
    {x : String} {r : String}
    (h : alookup (finalState tasks) x = some (TaskStatus.skipped r)) :
    ∃ a fr, DependsOn tasks x a ∧
      alookup (finalState tasks) a = some (TaskStatus.failed fr) := by
  refine runAux_skip_ancestor tasks tasks [] [] (fun t ht => ht) ?_ ?_ ?_ x r h
  · exact htopo
  · intro y s hy; cases hy
  · intro y ry hy; cases hy

theorem depOutputs_congr {st₁ st₂ : List (String × TaskStatus)} :
    ∀ {deps : List String},
      (∀ d ∈ deps, alookup st₁ d = alookup st₂ d) →
      depOutputs st₁ deps = depOutputs st₂ deps := by
  intro deps
  induction deps with
  | nil => intro _; rfl
  | cons d rest ih =>
    intro hagree
    have hd := hagree d (by simp)
    have hrest := ih fun d' hd' => hagree d' (by simp [hd'])
    simp only [depOutputs, hd, hrest]

theorem firstBlocked_congr {st₁ st₂ : List (String × TaskStatus)}
    {deps : List String}
    (hagree : ∀ d ∈ deps, alookup st₁ d = alookup st₂ d) :
    firstBlocked st₁ deps = firstBlocked st₂ deps := by
  unfold firstBlocked
  induction deps with
  | nil => rfl
  | cons d rest ih =>
    have hd := hagree d (by simp)
    simp only [List.find?]
    rw [hd]
    rcases alookup st₂ d with _ | s
    · rfl
    · rcases s with _ | _ | v | r | r
      · rfl
      · rfl
      · exact ih fun d' hd' => hagree d' (by simp [hd'])
      · rfl
      · rfl

theorem runTask_congr {st₁ st₂ : List (String × TaskStatus)} {t : Task}
    (hagree : ∀ d ∈ t.deps, alookup st₁ d = alookup st₂ d) :
    runTask st₁ t = runTask st₂ t := by
  unfold runTask
  rw [depOutputs_congr hagree, firstBlocked_congr hagree]

theorem runAux_replace_agree (ts0 : List Task) (a : String)
    (e : List (String × String) → Except String String) :
    ∀ (ts : List Task) (st₁ st₂ : List (String × TaskStatus)) (inv₁ inv₂ : List String),
      (∀ t ∈ ts, t ∈ ts0) →
      (∀ x, x ≠ a → ¬ DependsOn ts0 x a → alookup st₁ x = alookup st₂ x) →
      ∀ x, x ≠ a → ¬ DependsOn ts0 x a →
        alookup (runAux st₁ inv₁ ts).1 x =
        alookup (runAux st₂ inv₂
          (ts.map fun t => if t.name = a then { t with execute := e } else t)).1 x := by
  intro ts
  induction ts with
  | nil => intro st₁ st₂ inv₁ inv₂ _ hagree x hxa hxd; exact hagree x hxa hxd
  | cons t rest ih =>
    intro st₁ st₂ inv₁ inv₂ hsub hagree x hxa hxd
    have ht0 : t ∈ ts0 := hsub t (by simp)
    have hname : (if t.name = a then { t with execute := e } else t).name = t.name := by
      by_cases hc : t.name = a <;> simp [hc]
    have hdeps : (if t.name = a then { t with execute := e } else t).deps = t.deps := by
      by_cases hc : t.name = a <;> simp [hc]
    by_cases htaint : t.name = a ∨ DependsOn ts0 t.name a
    · -- the head is the replaced task or one of its transitive dependents:
      -- its entries are keyed by a tainted name, invisible to untainted x
      have hagree' : ∀ y, y ≠ a → ¬ DependsOn ts0 y a →
          alookup (st₁ ++ [(t.name, (runTask st₁ t).1)]) y =
          alookup (st₂ ++ [((if t.name = a then { t with execute := e } else t).name,
            (runTask st₂ (if t.name = a then { t with execute := e } else t)).1)]) y := by
        intro y hya hyd
        have hyt : y ≠ t.name := by
          intro he
          rcases htaint with h1 | h1
          · exact hya (he.trans h1)
          · exact hyd (he ▸ h1)
        rw [alookup_append, alookup_append, hname]
        rcases h1 : alookup st₁ y with _ | s₁
        · rw [← hagree y hya hyd, h1]
          simp [alookup, hyt]
        · rw [← hagree y hya hyd, h1]
      exact ih (st₁ ++ [(t.name, (runTask st₁ t).1)])
        (st₂ ++ [((if t.name = a then { t with execute := e } else t).name,
          (runTask st₂ (if t.name = a then { t with execute := e } else t)).1)])
        (if (runTask st₁ t).2 then inv₁ ++ [t.name] else inv₁)
        (if (runTask st₂ (if t.name = a then { t with execute := e } else t)).2
          then inv₂ ++ [(if t.name = a then { t with execute := e } else t).name] else inv₂)
        (fun u hu => hsub u (by simp [hu])) hagree' x hxa hxd
    · -- the head is untainted: it resolves identically in both runs
      push_neg at htaint
      obtain ⟨hta, htd⟩ := htaint
      have hrepl : (if t.name = a then { t with execute := e } else t) = t := by
        simp [hta]
      have hdepagree : ∀ d ∈ t.deps, alookup st₁ d = alookup st₂ d := by
        intro d hd
        have hda : d ≠ a := by
          intro he
          exact htd (he ▸ DependsOn.direct ht0 hd)
        have hdd : ¬ DependsOn ts0 d a := by
          intro hdep
          exact htd (DependsOn.trans ht0 hd hdep)
        exact hagree d hda hdd
      have hrt : runTask st₁ t = runTask st₂ t := runTask_congr hdepagree
      have hagree' : ∀ y, y ≠ a → ¬ DependsOn ts0 y a →
          alookup (st₁ ++ [(t.name, (runTask st₁ t).1)]) y =
          alookup (st₂ ++ [(t.name, (runTask st₂ t).1)]) y := by
        intro y hya hyd
        rw [alookup_append, alookup_append, ← hagree y hya hyd, hrt]
      rw [List.map_cons, hrepl]
      exact ih (st₁ ++ [(t.name, (runTask st₁ t).1)])
        (st₂ ++ [(t.name, (runTask st₂ t).1)])
        (if (runTask st₁ t).2 then inv₁ ++ [t.name] else inv₁)
        (if (runTask st₂ t).2 then inv₂ ++ [t.name] else inv₂)
        (fun u hu => hsub u (by simp [hu])) hagree' x hxa hxd

/-- The final status of a task that does not transitively depend on `a` is
unchanged when the `execute` of `a` is replaced by any other body. -/
theorem outcome_independent {tasks : List Task} {a : String}
    (e : List (String × String) → Except String String) {x : String}
    (hxa : x ≠ a) (hxd : ¬ DependsOn tasks x a) :
    alookup (finalState (replaceExec tasks a e)) x = alookup (finalState tasks) x := by
  have := runAux_replace_agree tasks a e tasks [] [] [] []
    (fun t ht => ht) (fun y _ _ => rfl) x hxa hxd
  exact this.symm

/-- Every transitive dependent of a task whose final status is not
Succeeded ends the run Skipped, and its `execute` is never invoked. -/
theorem dependents_skipped {tasks : List Task} {x b : String}
    (hnd : (tasks.map Task.name).Nodup) (hdep : DependsOn tasks x b)
    (hb : ∀ v, alookup (finalState tasks) b ≠ some (TaskStatus.succeeded v)) :
    (∃ r, alookup (finalState tasks) x = some (TaskStatus.skipped r)) ∧
    x ∉ invoked tasks := by
  induction hdep with
  | direct ht hd => exact blocked_task_skipped hnd ht hd hb
  | trans ht hbd _ ih =>
    obtain ⟨⟨r, hr⟩, _⟩ := ih hb
    refine blocked_task_skipped hnd ht hbd ?_
    intro v hv
    rw [hr] at hv
    cases hv

/-! ### Claim theorems for the scheduler (C3, C5) -/

/-- Claim C3: for every run of a validated task graph, the run reaches
terminal state exactly when every task is in {Succeeded, Failed, Skipped};
the terminal status is run_complete if no task Failed and run_failed
otherwise; and a single task's failure never aborts the run mid-flight —
the final state below is total (every task holds a terminal status) no
matter which `execute` bodies fail, i.e. a best-effort result is always
produced. -/
theorem run_terminal_status (tasks : List Task) (_htopo : TopoSorted [] tasks) :
    terminalRun (finalState tasks) tasks = true ∧
    (runStatus (finalState tasks) tasks = "run_failed" ↔
      ∃ t ∈ tasks, ∃ r, alookup (finalState tasks) t.name = some (TaskStatus.failed r)) ∧
    (runStatus (finalState tasks) tasks = "run_complete" ↔
      ¬ ∃ t ∈ tasks, ∃ r, alookup (finalState tasks) t.name = some (TaskStatus.failed r)) := by
  have hdone : ∀ t ∈ tasks, ∃ s,
      alookup (finalState tasks) t.name = some s ∧ s.isDone = true := by
    intro t ht
    have hk : t.name ∈ ((runAux [] [] tasks).1).map Prod.fst := by
      rw [runAux_keys]
      simpa using List.mem_map_of_mem Task.name ht
    obtain ⟨s, hs⟩ := alookup_mem_keys hk
    exact ⟨s, hs, runAux_done tasks [] [] (fun x s h => by cases h) t.name s hs⟩
  have hany : (tasks.any fun t =>
      match alookup (finalState tasks) t.name with
      | some (TaskStatus.failed _) => true
      | _ => false) = true ↔
      ∃ t ∈ tasks, ∃ r,
        alookup (finalState tasks) t.name = some (TaskStatus.failed r) := by
    rw [List.any_eq_true]
    constructor
    · rintro ⟨t, ht, hp⟩
      refine ⟨t, ht, ?_⟩
      rcases hl : alookup (finalState tasks) t.name with _ | s
      · rw [hl] at hp; cases hp
      · rw [hl] at hp
        rcases s with _ | _ | v | r | r
        · cases hp
        · cases hp
        · cases hp
        · exact ⟨r, rfl⟩
        · cases hp
    · rintro ⟨t, ht, r, hr⟩
      exact ⟨t, ht, by rw [hr]⟩
  refine ⟨?_, ?_, ?_⟩
  · rw [terminalRun, List.all_eq_true]
    intro t ht
    obtain ⟨s, hs, hd⟩ := hdone t ht
    simpa [hs] using hd
  · unfold runStatus
    rcases hb : (tasks.any fun t =>
        match alookup (finalState tasks) t.name with
        | some (TaskStatus.failed _) => true
        | _ => false) with _ | _
    · rw [if_neg (by decide : ¬ (false = true))]
      constructor
      · intro h
        exact absurd h (by decide)
      · intro h
        have hc := hany.mpr h
        rw [hb] at hc
        cases hc
    · rw [if_pos rfl]
      exact ⟨fun _ => hany.mp hb, fun _ => rfl⟩
  · unfold runStatus
    rcases hb : (tasks.any fun t =>
        match alookup (finalState tasks) t.name with
        | some (TaskStatus.failed _) => true
        | _ => false) with _ | _
    · rw [if_neg (by decide : ¬ (false = true))]
      refine ⟨fun _ h => ?_, fun _ => rfl⟩
      have hc := hany.mpr h
      rw [hb] at hc
      cases hc
    · rw [if_pos rfl]
      constructor
      · intro h
        exact absurd h (by decide)
      · intro h
        exact absurd (hany.mp hb) h

/-- Witness for C3: the demo graph is topologically sorted, and the run on
it is terminal with status run_failed characterised by the failed task. -/
theorem run_terminal_status_witness :
    TopoSorted [] demoTasks ∧
    (terminalRun (finalState demoTasks) demoTasks = true ∧
      (runStatus (finalState demoTasks) demoTasks = "run_failed" ↔
        ∃ t ∈ demoTasks, ∃ r,
          alookup (finalState demoTasks) t.name = some (TaskStatus.failed r)) ∧
      (runStatus (finalState demoTasks) demoTasks = "run_complete" ↔
        ¬ ∃ t ∈ demoTasks, ∃ r,
          alookup (finalState demoTasks) t.name = some (TaskStatus.failed r))) :=
  ⟨by decide, run_terminal_status demoTasks (by decide)⟩

/-- Claim C5 (amended): in a run of a validated graph in which task `a`
Failed, (1) every task transitively dependent on `a` ends Skipped without
its `execute` ever being invoked; (2) every other task not transitively
dependent on `a` has a final status independent of `a`'s outcome (replacing
the `execute` of `a` by any other body leaves its final status unchanged);
and (3) a task not transitively dependent on any Failed task reaches
Succeeded or Failed. -/
theorem branch_isolation (tasks : List Task) (a : String)
    (e : List (String × String) → Except String String) (r : String)
    (hnd : (tasks.map Task.name).Nodup) (htopo : TopoSorted [] tasks)
    (hfail : alookup (finalState tasks) a = some (TaskStatus.failed r)) :
    (∀ x, DependsOn tasks x a →
      (∃ sr, alookup (finalState tasks) x = some (TaskStatus.skipped sr)) ∧
      x ∉ invoked tasks) ∧
    (∀ x, x ≠ a → ¬ DependsOn tasks x a →
      alookup (finalState (replaceExec tasks a e)) x = alookup (finalState tasks) x) ∧
    (∀ t ∈ tasks,
      (∀ f fr, DependsOn tasks t.name f →
        alookup (finalState tasks) f ≠ some (TaskStatus.failed fr)) →
      ∃ s, alookup (finalState tasks) t.name = some s ∧ s.isCompleted = true) := by
  refine ⟨?_, ?_, ?_⟩
  · intro x hdep
    refine dependents_skipped hnd hdep ?_
    intro v hv
    rw [hfail] at hv
    cases hv
  · intro x hxa hxd
    exact outcome_independent e hxa hxd
  · intro t ht hnof
    have hk : t.name ∈ ((runAux [] [] tasks).1).map Prod.fst := by
      rw [runAux_keys]
      simpa using List.mem_map_of_mem Task.name ht
    obtain ⟨s, hs⟩ := alookup_mem_keys hk
    have hd := runAux_done tasks [] [] (fun x s h => by cases h) t.name s hs
    rcases s with _ | _ | v | fr | sr
    · cases hd
    · cases hd
    · exact ⟨_, hs, rfl⟩
    · exact ⟨_, hs, rfl⟩
    · exfalso
      obtain ⟨f, fr, hdep, hfa⟩ := final_skip_ancestor htopo hs
      exact hnof f fr hdep hfa

/-- Witness for C5: `branch_isolation` applied to `isoTasks` at the failed
task "A", with every hypothesis discharged by evaluation. -/
theorem branch_isolation_witness :
    ((isoTasks.map Task.name).Nodup ∧ TopoSorted [] isoTasks ∧
      alookup (finalState isoTasks) "A" = some (TaskStatus.failed "boom")) ∧
    ((∀ x, DependsOn isoTasks x "A" →
      (∃ sr, alookup (finalState isoTasks) x = some (TaskStatus.skipped sr)) ∧
      x ∉ invoked isoTasks) ∧
    (∀ x, x ≠ "A" → ¬ DependsOn isoTasks x "A" →
      alookup (finalState (replaceExec isoTasks "A" (fun _ => Except.ok "fixed"))) x =
        alookup (finalState isoTasks) x) ∧
    (∀ t ∈ isoTasks,
      (∀ f fr, DependsOn isoTasks t.name f →
        alookup (finalState isoTasks) f ≠ some (TaskStatus.failed fr)) →
      ∃ s, alookup (finalState isoTasks) t.name = some s ∧ s.isCompleted = true)) :=
  ⟨⟨by decide, by decide, by decide⟩,
    branch_isolation isoTasks "A" (fun _ => Except.ok "fixed") "boom"
      (by decide) (by decide) (by decide)⟩

/-- Counterexample to claim C5 as stated: in a run of `cexTasks`, task "A"
Fails and task "C" does not transitively depend on "A", yet "C" ends the
run Skipped (because its own upstream "B" also failed) — it does not reach
Succeeded or Failed. -/
theorem branch_isolation_cex :
    "C" ∈ cexTasks.map Task.name ∧
    alookup (finalState cexTasks) "A" = some (TaskStatus.failed "boom") ∧
    ¬ DependsOn cexTasks "C" "A" ∧
    alookup (finalState cexTasks) "C" =
      some (TaskStatus.skipped "upstream failure: B") ∧
    (∀ s, alookup (finalState cexTasks) "C" = some s → s.isCompleted = false) := by
  have key : ∀ x y, DependsOn cexTasks x y → y = "B" := by
    intro x y h
    induction h with
    | direct ht hd =>
      simp only [cexTasks, List.mem_cons, List.not_mem_nil, or_false] at ht
      rcases ht with rfl | rfl | rfl
      · simp at hd
      · simp at hd
      · simpa using hd
    | trans ht hb hdep ih => exact ih
  refine ⟨by decide, by decide, ?_, by decide, ?_⟩
  · intro h
    exact absurd (key _ _ h) (by decide)
  · intro s hs
    have : s = TaskStatus.skipped "upstream failure: B" := by
      have h2 : alookup (finalState cexTasks) "C" =
          some (TaskStatus.skipped "upstream failure: B") := by decide
      rw [h2] at hs
      cases hs
      rfl
    rw [this]
    rfl

theorem filterMap_agree {α β : Type} {l : List α} {f g : α → Option β}
    (h : ∀ a ∈ l, f a = g a) : l.filterMap f = l.filterMap g := by
  induction l with
  | nil => rfl
  | cons a rest ih =>
    rw [List.filterMap_cons, List.filterMap_cons, h a (by simp),
      ih fun a' ha' => h a' (by simp [ha'])]

/-! ### Claim theorems for the correlation engine (C4, C6, C7) -/

/-- Claim C4: every Correlation Finding produced by the engine carries a
rule_name, a severity drawn from {Low, Medium, High, Critical}, a
description and an evidence list — all taken from the triggering rule —
and every evidence entry references a Succeeded output of the Run State;
the frontend `CrossWorkstreamFlag` interface carries exactly these four
fields. -/
theorem finding_fields (rules : List CorrelationRule) (s : RunState) (f : Finding)
    (hf : f ∈ correlate rules s) :
    (∃ r ∈ rules, f.rule_name = r.name ∧ f.severity = r.severity ∧
      f.description = r.description ∧ f.evidence = r.reads) ∧
    (∀ t ∈ f.evidence, ∃ v, alookup s.outputs t = some (TaskStatus.succeeded v)) ∧
    f.severity ∈ [Severity.low, Severity.medium, Severity.high, Severity.critical] ∧
    CrossWorkstreamFlag.fields = ["rule_name", "severity", "description", "evidence"] := by
  obtain ⟨r, hr, he⟩ := List.mem_filterMap.mp hf
  have hshape : depOutputs s.outputs r.reads ≠ none ∧
      f = ⟨r.name, r.severity, r.description, r.reads⟩ := by
    rcases hdep : depOutputs s.outputs r.reads with _ | vals
    · exfalso
      have hz : evalRule s r = none := by unfold evalRule; rw [hdep]
      rw [hz] at he
      cases he
    · have heval : evalRule s r =
          if r.predicate vals = true then
            some (⟨r.name, r.severity, r.description, r.reads⟩ : Finding) else none := by
        unfold evalRule
        rw [hdep]
      rw [heval] at he
      by_cases hp : r.predicate vals = true
      · rw [if_pos hp] at he
        cases he
        refine ⟨?_, rfl⟩
        intro hc
        cases hc
      · rw [if_neg hp] at he
        cases he
  obtain ⟨hdepne, rfl⟩ := hshape
  refine ⟨⟨r, hr, rfl, rfl, rfl, rfl⟩, ?_, ?_, rfl⟩
  · intro t ht
    rcases hdep : depOutputs s.outputs r.reads with _ | vals
    · exact absurd hdep hdepne
    · exact depOutputs_some_mem hdep t ht
  · rcases r.severity with _ | _ | _ | _ <;> simp

/-- Claim C6: the Correlation Engine is a pure derivation of the Run State
outputs — evaluating it on two snapshots with the same outputs (in
particular, twice on the very same terminal snapshot) yields identical
findings. -/
theorem correlate_deterministic (rules : List CorrelationRule) (s₁ s₂ : RunState)
    (_hterm : s₁.isTerminal = true) (hout : s₁.outputs = s₂.outputs) :
    correlate rules s₁ = correlate rules s₂ := by
  refine filterMap_agree ?_
  intro r _
  unfold evalRule
  rw [hout]

/-- Claim C7: a rule referencing a task output that is Failed or Skipped
yields no finding — it is silently disqualified rather than raising an
error (`evalRule` is a total function into `Option`). -/
theorem rule_missing_input_not_triggered (s : RunState) (r : CorrelationRule)
    (t : String) (hmem : t ∈ r.reads)
    (hst : (∃ fr, alookup s.outputs t = some (TaskStatus.failed fr)) ∨
      (∃ sr, alookup s.outputs t = some (TaskStatus.skipped sr))) :
    evalRule s r = none := by
  have hns : ∀ v, alookup s.outputs t ≠ some (TaskStatus.succeeded v) := by
    intro v hv
    rcases hst with ⟨fr, hfr⟩ | ⟨sr, hsr⟩
    · rw [hfr] at hv; cases hv
    · rw [hsr] at hv; cases hv
  have hdep : depOutputs s.outputs r.reads = none := by
    rcases hdep : depOutputs s.outputs r.reads with _ | vals
    · rfl
    · obtain ⟨v, hv⟩ := depOutputs_some_mem hdep t hmem
      exact absurd hv (hns v)
  unfold evalRule
  rw [hdep]

/-- Witness for C4: `finding_fields` applied to the finding produced by
`demoRule` on `demoState`. -/
theorem finding_fields_witness :
    (⟨"HighRiskInsiderSelling", Severity.high,
        "High risk score combined with insider selling", ["risk", "insider"]⟩ : Finding)
      ∈ correlate [demoRule] demoState ∧
    ((∃ r ∈ [demoRule],
        (⟨"HighRiskInsiderSelling", Severity.high,
          "High risk score combined with insider selling",
          ["risk", "insider"]⟩ : Finding).rule_name = r.name ∧
        (⟨"HighRiskInsiderSelling", Severity.high,
          "High risk score combined with insider selling",
          ["risk", "insider"]⟩ : Finding).severity = r.severity ∧
        (⟨"HighRiskInsiderSelling", Severity.high,
          "High risk score combined with insider selling",
          ["risk", "insider"]⟩ : Finding).description = r.description ∧
        (⟨"HighRiskInsiderSelling", Severity.high,
          "High risk score combined with insider selling",
          ["risk", "insider"]⟩ : Finding).evidence = r.reads) ∧
      (∀ t ∈ (⟨"HighRiskInsiderSelling", Severity.high,
          "High risk score combined with insider selling",
          ["risk", "insider"]⟩ : Finding).evidence,
        ∃ v, alookup demoState.outputs t = some (TaskStatus.succeeded v)) ∧
      (⟨"HighRiskInsiderSelling", Severity.high,
        "High risk score combined with insider selling",
        ["risk", "insider"]⟩ : Finding).severity
          ∈ [Severity.low, Severity.medium, Severity.high, Severity.critical] ∧
      CrossWorkstreamFlag.fields = ["rule_name", "severity", "description", "evidence"]) :=
  ⟨by decide, finding_fields [demoRule] demoState _ (by decide)⟩

/-- Witness for C6: `correlate_deterministic` applied to the terminal
snapshot `demoState` and a snapshot with identical outputs. -/
theorem correlate_deterministic_witness :
    (demoState.isTerminal = true ∧ demoState.outputs = demoStateB.outputs) ∧
    correlate [demoRule] demoState = correlate [demoRule] demoStateB :=
  ⟨⟨by decide, by decide⟩,
    correlate_deterministic [demoRule] demoState demoStateB (by decide) (by decide)⟩

/-- Witness for C7: `rule_missing_input_not_triggered` applied to
`demoRule` on `skipState`, whose referenced "insider" output is Skipped. -/
theorem rule_missing_input_witness :
    ("insider" ∈ demoRule.reads ∧
      alookup skipState.outputs "insider" =
        some (TaskStatus.skipped "upstream failure: ingest")) ∧
    evalRule skipState demoRule = none :=
  ⟨⟨by decide, by decide⟩,
    rule_missing_input_not_triggered skipState demoRule "insider" (by decide)
      (Or.inr ⟨"upstream failure: ingest", by decide⟩)⟩

theorem digitChar_isDigit {d : ℕ} (h : d < 10) : (Nat.digitChar d).isDigit = true := by
  interval_cases d <;> decide

theorem natDigitsStr_chars {n : ℕ} : ∀ c ∈ (natDigitsStr n).data, c.isDigit = true := by
  intro c hc
  unfold natDigitsStr at hc
  by_cases h : n = 0
  · rw [if_pos h] at hc
    have hc0 : c = '0' := by simpa using hc
    rw [hc0]
    decide
  · rw [if_neg h] at hc
    have hc' : c ∈ ((Nat.digits 10 n).reverse).map Nat.digitChar := hc
    obtain ⟨d, hd, rfl⟩ := List.mem_map.mp hc'
    exact digitChar_isDigit (Nat.digits_lt_base (by norm_num) (List.mem_reverse.mp hd))

theorem padZeros_chars {s : String} {d : ℕ} :
    ∀ c ∈ (padZeros s d).data, c = '0' ∨ c ∈ s.data := by
  intro c hc
  unfold padZeros at hc
  rw [String.data_append] at hc
  rcases List.mem_append.mp hc with hc' | hc'
  · left
    have : c ∈ List.replicate (d - s.length) '0' := hc'
    exact List.eq_of_mem_replicate this
  · right
    exact hc'

theorem ratToFixed_chars {q : ℚ} {d : ℕ} :
    ∀ c ∈ (ratToFixed q d).data, c.isDigit = true ∨ c = '-' ∨ c = '.' := by
  intro c hc
  unfold ratToFixed at hc
  by_cases hd : d = 0
  · rw [if_pos hd] at hc
    rw [String.data_append] at hc
    rcases List.mem_append.mp hc with hc' | hc'
    · right; left
      by_cases hn : round (q * (10 : ℚ) ^ d) < 0
      · rw [if_pos hn] at hc'
        simpa using hc'
      · rw [if_neg hn] at hc'
        simp at hc'
    · exact Or.inl (natDigitsStr_chars c hc')
  · rw [if_neg hd] at hc
    rw [String.data_append, String.data_append, String.data_append] at hc
    rcases List.mem_append.mp hc with hc1 | hc4
    · rcases List.mem_append.mp hc1 with hc2 | hc3
      · rcases List.mem_append.mp hc2 with hs | hi
        · right; left
          by_cases hn : round (q * (10 : ℚ) ^ d) < 0
          · rw [if_pos hn] at hs
            simpa using hs
          · rw [if_neg hn] at hs
            simp at hs
        · exact Or.inl (natDigitsStr_chars c hi)
      · right; right
        simpa using hc3
    · rcases padZeros_chars c hc4 with h0 | hfrac
      · exact Or.inl (by rw [h0]; decide)
      · exact Or.inl (natDigitsStr_chars c hfrac)

/-! ### Claim theorems for the frontend contracts (C1, C2) -/

/-- Counterexample to claim C1 as stated: the `PipelineProgress` schema
delivered to the observer has no `task_name`, `tier`, `status` or
`sequence_number` field, and its `timestamp` field is optional (an event
value without it exists). -/
theorem progress_event_contract_cex :
    "task_name" ∉ PipelineProgress.fields ∧
    "tier" ∉ PipelineProgress.fields ∧
    "status" ∉ PipelineProgress.fields ∧
    "sequence_number" ∉ PipelineProgress.fields ∧
    (∃ e : PipelineProgress, e.timestamp = none) :=
  ⟨by decide, by decide, by decide, by decide,
    ⟨⟨"run-1", Stage.bronze, "parser", "starting", 0, none⟩, rfl⟩⟩

/-- Claim C1 (amended): every Progress Event delivered to the external
observer carries run_id, stage (one of bronze / silver / gold /
workstreams / complete / error), agent, message and progress_pct, with an
optional timestamp; the schema carries no sequence_number, so no
sequence-number ordering invariant is part of the delivered contract. -/
theorem progress_event_contract :
    PipelineProgress.requiredFields =
      ["run_id", "stage", "agent", "message", "progress_pct"] ∧
    PipelineProgress.optionalFields = ["timestamp"] ∧
    PipelineProgress.fields =
      ["run_id", "stage", "agent", "message", "progress_pct", "timestamp"] ∧
    Stage.values = ["bronze", "silver", "gold", "workstreams", "complete", "error"] ∧
    (∃ e : PipelineProgress, e.timestamp = none) :=
  ⟨rfl, rfl, by decide, rfl,
    ⟨⟨"run-1", Stage.bronze, "parser", "starting", 0, none⟩, rfl⟩⟩

/-- Counterexample to claim C2 as stated: the record `getResults` returns
(`PipelineResults`) has none of the claimed `runId`, `subject`, `outputs`
or `findings` fields, and the frontend's terminal-status test accepts
"error", which is outside the claimed status set
{running, complete, partial_failure}. -/
theorem run_result_contract_cex :
    "runId" ∉ PipelineResults.fields ∧
    "subject" ∉ PipelineResults.fields ∧
    "outputs" ∉ PipelineResults.fields ∧
    "findings" ∉ PipelineResults.fields ∧
    isTerminalResultStatus "error" = true := by
  refine ⟨by decide, by decide, by decide, by decide, rfl⟩

/-- Claim C2 (amended): `getResults` returns a `PipelineResults` record
with required fields run_id, ticker and status (a string: the frontend
treats "complete" and "error" as terminal and keeps polling otherwise,
"partial_failure" is not one of its terminal statuses), per-task outputs
exposed as individual optional fields (kpis, governance, …) and
correlation findings as the optional cross_workstream_flags field, which
may be absent. -/
theorem run_result_contract :
    PipelineResults.requiredFields = ["run_id", "ticker", "status"] ∧
    "cross_workstream_flags" ∈ PipelineResults.optionalFields ∧
    "kpis" ∈ PipelineResults.optionalFields ∧
    "governance" ∈ PipelineResults.optionalFields ∧
    isTerminalResultStatus "complete" = true ∧
    isTerminalResultStatus "error" = true ∧
    isTerminalResultStatus "running" = false ∧
    isTerminalResultStatus "partial_failure" = false := by
  refine ⟨rfl, by decide, by decide, by decide, rfl, rfl, rfl, rfl⟩

/-! ### Claim theorems for IncomeFlowSankey (C8, C9) -/

/-- Claim C8: whenever the `revenue` KPI is null or not strictly positive,
`IncomeFlowSankey` renders the "Revenue data not available" placeholder
(and in particular never reaches `computeLayout`); consequently every
rendered chart's revenue — the denominator of every "% of Revenue"
division in the node labels and tooltips — is strictly positive. -/
theorem sankey_revenue_guard (k : FinancialKPIs) :
    ((k.revenue = none ∨ ∃ v, k.revenue = some v ∧ v ≤ 0) →
      IncomeFlowSankey k = SankeyView.placeholder) ∧
    (∀ L, IncomeFlowSankey k = SankeyView.chart L →
      0 < L.revenue ∧ L.revenue = sankeyRevenue k) := by
  constructor
  · intro h
    have hr : sankeyRevenue k ≤ 0 := by
      rcases h with h | ⟨v, hv, hv0⟩
      · simp [sankeyRevenue, h]
      · rw [sankeyRevenue, hv]
        exact hv0
    unfold IncomeFlowSankey
    rw [if_pos hr]
  · intro L hL
    unfold IncomeFlowSankey at hL
    by_cases hr : sankeyRevenue k ≤ 0
    · rw [if_pos hr] at hL
      cases hL
    · rw [if_neg hr] at hL
      cases hL
      exact ⟨not_le.mp hr, rfl⟩

/-- Evaluation of the seven node values of `computeLayout` on `sampleKPIs`. -/
theorem sampleKPIs_eval :
    sankeyRevenue sampleKPIs = 100 ∧ sankeyGrossProfit sampleKPIs = 60 ∧
    sankeyCostOfRevenue sampleKPIs = 40 ∧ sankeyOperatingIncome sampleKPIs = 30 ∧
    sankeyOperatingExpenses sampleKPIs = 30 ∧ sankeyNetIncome sampleKPIs = 20 ∧
    sankeyTaxAndOther sampleKPIs = 10 := by
  refine ⟨rfl, rfl, ?_, rfl, ?_, rfl, ?_⟩ <;>
    norm_num [sankeyCostOfRevenue, sankeyOperatingExpenses, sankeyTaxAndOther,
      sankeyRevenue, sankeyGrossProfit, sankeyOperatingIncome, sankeyNetIncome,
      sampleKPIs]

/-- Witness for C8: on `emptyKPIs` (null revenue) the placeholder is
rendered; on `sampleKPIs` the chart is rendered with positive revenue. -/
theorem sankey_revenue_guard_witness :
    (emptyKPIs.revenue = none ∧
      IncomeFlowSankey emptyKPIs = SankeyView.placeholder) ∧
    (IncomeFlowSankey sampleKPIs = SankeyView.chart (computeLayout sampleKPIs) ∧
      0 < (computeLayout sampleKPIs).revenue ∧
      (computeLayout sampleKPIs).revenue = sankeyRevenue sampleKPIs) := by
  have hpos : ¬ sankeyRevenue sampleKPIs ≤ 0 := by
    norm_num [sankeyRevenue, sampleKPIs]
  have hchart : IncomeFlowSankey sampleKPIs = SankeyView.chart (computeLayout sampleKPIs) := by
    unfold IncomeFlowSankey
    rw [if_neg hpos]
  exact ⟨⟨rfl, (sankey_revenue_guard emptyKPIs).1 (Or.inl rfl)⟩,
    ⟨hchart, (sankey_revenue_guard sampleKPIs).2 (computeLayout sampleKPIs) hchart⟩⟩

/-- Claim C9: `computeLayout` lays out only nodes with strictly positive
value (the three derived cost values are clamped to max(0, difference) and
non-positive nodes and links are filtered out), and every laid-out link
has both endpoints present in the node map. -/
theorem sankey_layout_invariants (k : FinancialKPIs) :
    (∀ n ∈ (computeLayout k).nodes, 0 < n.val) ∧
    (∀ l ∈ (computeLayout k).links,
      (sankeyNodeMap k l.s).isSome = true ∧ (sankeyNodeMap k l.t).isSome = true) ∧
    0 ≤ sankeyCostOfRevenue k ∧ 0 ≤ sankeyOperatingExpenses k ∧
    0 ≤ sankeyTaxAndOther k := by
  refine ⟨?_, ?_, le_max_left 0 _, le_max_left 0 _, le_max_left 0 _⟩
  · intro n hn
    have hn' : n ∈ sankeyNodeDefs k := hn
    unfold sankeyNodeDefs at hn'
    exact of_decide_eq_true (List.mem_filter.mp hn').2
  · intro l hl
    have hl' : l ∈ sankeyLayoutLinks k := hl
    unfold sankeyLayoutLinks at hl'
    have hp := (List.mem_filter.mp hl').2
    simp only [Bool.and_eq_true] at hp
    exact hp

/-- Witness for C9: `sankey_layout_invariants` applied to the revenue node
and revenue→gross-profit link that `computeLayout sampleKPIs` produces. -/
theorem sankey_layout_invariants_witness :
    ((⟨"revenue", "Revenue", 0, NodeType.rev, (100 : ℚ)⟩ : SankeyNodeDef)
        ∈ (computeLayout sampleKPIs).nodes ∧
      0 < ((⟨"revenue", "Revenue", 0, NodeType.rev, (100 : ℚ)⟩ : SankeyNodeDef)).val) ∧
    ((⟨"revenue", "gross_profit", (60 : ℚ)⟩ : SankeyLinkDef)
        ∈ (computeLayout sampleKPIs).links ∧
      (sankeyNodeMap sampleKPIs "revenue").isSome = true ∧
      (sankeyNodeMap sampleKPIs "gross_profit").isSome = true) := by
  obtain ⟨h1, h2, h3, h4, h5, h6, h7⟩ := sampleKPIs_eval
  have hnode : (⟨"revenue", "Revenue", 0, NodeType.rev, (100 : ℚ)⟩ : SankeyNodeDef)
      ∈ (computeLayout sampleKPIs).nodes := by
    show _ ∈ sankeyNodeDefs sampleKPIs
    unfold sankeyNodeDefs
    rw [h1, h2, h3, h4, h5, h6, h7]
    decide
  have hlink : (⟨"revenue", "gross_profit", (60 : ℚ)⟩ : SankeyLinkDef)
      ∈ (computeLayout sampleKPIs).links := by
    show _ ∈ sankeyLayoutLinks sampleKPIs
    unfold sankeyLayoutLinks sankeyLinkDefs sankeyNodeMap sankeyNodeDefs
    rw [h1, h2, h3, h4, h5, h6, h7]
    decide
  exact ⟨⟨hnode, (sankey_layout_invariants sampleKPIs).1 _ hnode⟩,
    ⟨hlink, (sankey_layout_invariants sampleKPIs).2.1 _ hlink⟩⟩

/-! ### Claim theorem for the formatters (C10) -/

theorem dollar_ne_na (s : String) : "$" ++ s ≠ "N/A" := by
  intro h
  have hd := congrArg String.data h
  rw [String.data_append] at hd
  have hc : '$' :: s.data = ['N', '/', 'A'] := hd
  cases hc

theorem pct_ne_na (s : String) : s ++ "%" ≠ "N/A" := by
  intro h
  have hd := congrArg (fun t => t.data.reverse) h
  simp only [String.data_append, List.reverse_append] at hd
  have hc : '%' :: s.data.reverse = ['A', '/', 'N'] := hd
  cases hc

theorem ratToFixed_ne_na (q : ℚ) (d : ℕ) : ratToFixed q d ≠ "N/A" := by
  intro h
  have hN : 'N' ∈ (ratToFixed q d).data := by
    rw [h]
    decide
  rcases ratToFixed_chars 'N' hN with h1 | h1 | h1
  · exact absurd h1 (by decide)
  · exact absurd h1 (by decide)
  · exact absurd h1 (by decide)

/-- Claim C10: `formatCurrency`, `formatPercent` and `formatNumber` return
"N/A" exactly when their argument is missing, and a formatted numeric
string (never "N/A") on every present number; all three are total
functions, so no missing value can make them throw. -/
theorem formatters_na_iff (q : ℚ) (d : ℕ) :
    formatCurrency none = "N/A" ∧ formatPercent none = "N/A" ∧
    formatNumber none d = "N/A" ∧
    formatCurrency (some q) ≠ "N/A" ∧ formatPercent (some q) ≠ "N/A" ∧
    formatNumber (some q) d ≠ "N/A" := by
  refine ⟨rfl, rfl, rfl, ?_, ?_, ?_⟩
  · show (if (1000000000 : ℚ) ≤ |q| then "$" ++ ratToFixed (q / 1000000000) 1 ++ "B"
      else if (1000000 : ℚ) ≤ |q| then "$" ++ ratToFixed (q / 1000000) 1 ++ "M"
      else "$" ++ ratToLocale q) ≠ "N/A"
    by_cases h1 : (1000000000 : ℚ) ≤ |q|
    · rw [if_pos h1]
      exact dollar_ne_na _
    · rw [if_neg h1]
      by_cases h2 : (1000000 : ℚ) ≤ |q|
      · rw [if_pos h2]
        exact dollar_ne_na _
      · rw [if_neg h2]
        exact dollar_ne_na _
  · exact pct_ne_na _
  · exact ratToFixed_ne_na q d

end DiligenceOps
